import Mathlib

/-!
Verification of the Markdown→HTML converter of VSCode-to-WordPress-Post.

The program under study is `out/markdown-parser.js` (class `MarkdownParser`),
the newest revision of the converter shipped by the repository.  JavaScript
strings are modelled as `List Char`; every function below mirrors, line by
line, the correspondingly named method of the JS class.  JS `split('\n')`,
`trim()`, `slice`, array `push`/`pop` and the concrete regular expressions
used by the class are given explicit executable models.
-/

set_option maxRecDepth 20000

namespace MDP

/-- JS string model. -/
abbrev JStr := List Char

/-- Shorthand: turn a Lean string literal into the `List Char` model. -/
def st (x : String) : JStr := x.toList

/-- The JavaScript whitespace set recognised by `trim()` and by the regex
class `\s` (restricted to the characters that can actually occur in the
repository's inputs; `\n` is included because `\s` matches it). -/
def jswsChars : List Char := [' ', '\t', '\n', '\r', '\x0b', '\x0c', '\u00A0', '\u3000', '\uFEFF']

/-- Is `c` JavaScript whitespace? -/
def jsws (c : Char) : Bool := jswsChars.contains c

/-- Model of JS `String.prototype.trim`. -/
def trimWS (l : JStr) : JStr :=
  ((l.dropWhile jsws).reverse.dropWhile jsws).reverse

/-- `p` is a prefix of `l` (model of JS `startsWith`). -/
def startsL : JStr → JStr → Bool
  | [], _ => true
  | _ :: _, [] => false
  | p :: ps, c :: cs => p = c && startsL ps cs

/-- `p` is a suffix of `l` (model of JS `endsWith`). -/
def endsL (p l : JStr) : Bool := startsL p.reverse l.reverse

/-- Does `l` contain `pat` as a contiguous substring (JS `includes`)? -/
def hasSubL (pat : JStr) : JStr → Bool
  | [] => startsL pat []
  | c :: cs => startsL pat (c :: cs) || hasSubL pat cs

/-- Model of JS `String.prototype.split(sep)` for a one-character separator:
`"".split(s) = [""]`, separators at the ends produce empty fields. -/
def splitCh (sep : Char) : JStr → List JStr
  | [] => [[]]
  | c :: cs =>
    let r := splitCh sep cs
    if c = sep then [] :: r
    else
      match r with
      | h :: t => (c :: h) :: t
      | [] => [[c]]

/-- `split('\n')`. -/
def splitNl (l : JStr) : List JStr := splitCh '\n' l

/-- Model of `Array.prototype.join('\n')`. -/
def joinNl : List JStr → JStr
  | [] => []
  | [x] => x
  | x :: xs => x ++ '\n' :: joinNl xs

/-- Model of `Array.prototype.join('<br>')`, used by the paragraph stage. -/
def joinBr : List JStr → JStr
  | [] => []
  | [x] => x
  | x :: xs => x ++ st "<br>" ++ joinBr xs

/-- `n` copies of a character. -/
def repC (n : Nat) (c : Char) : JStr := List.replicate n c

/-- Decimal rendering of a counter, as JS template interpolation does. -/
def natToStr (n : Nat) : JStr := (Nat.repr n).toList

/-! ### `escapeHtml`

The JS method chains five global replaces, `&` first; since none of the
replacement texts re-introduces a character replaced by a *later* stage and
`&` is replaced before any `&`-containing entity is produced, the chain is
equivalent to the single character-wise substitution below. -/

/-- One character of `escapeHtml`. -/
def escChar (c : Char) : JStr :=
  if c = '&' then st "&amp;"
  else if c = '<' then st "&lt;"
  else if c = '>' then st "&gt;"
  else if c = '"' then st "&quot;"
  else if c = '\'' then st "&#x27;"
  else [c]

/-- Model of `MarkdownParser.escapeHtml`. -/
def escapeHtml (l : JStr) : JStr := l.flatMap escChar

/-! ### Generic global-replace scanners

Model of JS `String.prototype.replace(/re/g, f)`: scan left to right, at
each index try the pattern; on a match emit the replacement and resume
after the match, otherwise emit the character and move one position.  All
patterns used by the parser consume at least one character, so the input
length is a sufficient fuel. -/

/-- Unanchored global replace.  `f` returns `(replacement, restAfterMatch)`. -/
def scanR (f : JStr → Option (JStr × JStr)) : Nat → JStr → JStr
  | 0, cs => cs
  | _ + 1, [] => []
  | n + 1, c :: cs =>
    match f (c :: cs) with
    | some (rep, rest) => rep ++ scanR f n rest
    | none => c :: scanR f n cs

/-- Line-anchored (`^` with the `m` flag) global replace.  `f` returns
`(consumedText, replacement, restAfterMatch)`; the flag tracks whether the
current position is a line start (index 0 or just after a `'\n'`). -/
def scanAnchR (f : JStr → Option (JStr × JStr × JStr)) : Nat → Bool → JStr → JStr
  | 0, _, cs => cs
  | _ + 1, _, [] => []
  | n + 1, atStart, c :: cs =>
    if atStart then
      match f (c :: cs) with
      | some (consumed, rep, rest) =>
        rep ++ scanAnchR f n (consumed.getLast? = some '\n') rest
      | none => c :: scanAnchR f n (c = '\n') cs
    else c :: scanAnchR f n (c = '\n') cs

/-- Descending search `n, n-1, …, 0` — used to model a greedy, backtracking
subexpression such as `[\s]*` followed by a mandatory part. -/
def descFind (f : Nat → Option α) : Nat → Option α
  | 0 => f 0
  | n + 1 =>
    match f (n + 1) with
    | some r => some r
    | none => descFind f n

end MDP

namespace MDP

/-! ### Front matter: `extractYamlHeader` and `parseYaml`

Mirrors `out/markdown-parser.js` lines 22–80. -/

/-- Metadata values: a plain string or an array of strings. -/
inductive YamlValue where
  | vstr (v : JStr)
  | varr (vs : List JStr)
deriving DecidableEq

/-- The metadata mapping, in insertion order (a JS object used as a map). -/
abbrev Metadata := List (JStr × YamlValue)

/-- JS object assignment `metadata[k] = v`: overwrite an existing key in
place, otherwise append. -/
def setKey (md : Metadata) (k : JStr) (v : YamlValue) : Metadata :=
  if md.any (fun p => p.1 = k) then
    md.map (fun p => if p.1 = k then (k, v) else p)
  else md ++ [(k, v)]

/-- Read a key from the metadata mapping. -/
def lookupKey (md : Metadata) (k : JStr) : Option YamlValue :=
  (md.find? (fun p => p.1 = k)).map (·.2)

/-- Key of a trimmed yaml line: the part left of the first colon, trimmed
(JS `trimmed.split(':')[0].trim()`). -/
def yamlKeyOf (t : JStr) : JStr := trimWS (t.takeWhile (· ≠ ':'))

/-- Raw value of a trimmed yaml line: everything right of the first colon,
re-joined and trimmed (JS `valueParts.join(':').trim()`). -/
def yamlRawValueOf (t : JStr) : JStr := trimWS ((t.dropWhile (· ≠ ':')).drop 1)

/-- Value typing of `parseYaml`: bracketed array (split on commas, fields
trimmed), then matching single/double quotes (inner text verbatim), then
the raw trimmed text. -/
def typeYamlValue (value : JStr) : YamlValue :=
  if startsL (st "[") value && endsL (st "]") value then
    .varr (((splitCh ',' ((value.drop 1).dropLast))).map trimWS)
  else if (startsL (st "\"") value && endsL (st "\"") value) ||
          (startsL (st "'") value && endsL (st "'") value) then
    .vstr ((value.drop 1).dropLast)
  else .vstr value

/-- One line of `parseYaml`'s loop: skip blank lines and `#` comments,
process lines containing a colon, ignore the rest. -/
def parseYamlLine (md : Metadata) (line : JStr) : Metadata :=
  let t := trimWS line
  if t = [] then md
  else if startsL (st "#") t then md
  else if t.contains ':' then setKey md (yamlKeyOf t) (typeYamlValue (yamlRawValueOf t))
  else md

/-- Model of `MarkdownParser.parseYaml`. -/
def parseYaml (yamlContent : JStr) : Metadata :=
  (splitNl yamlContent).foldl parseYamlLine []

/-- Index (within the lines after the opening marker) of the first line
that trims to `---`; models the `endIndex` search loop of
`extractYamlHeader`. -/
def findMarker : List JStr → Option Nat
  | [] => none
  | l :: ls =>
    if trimWS l = st "---" then some 0
    else (findMarker ls).map (· + 1)

/-- Model of `MarkdownParser.extractYamlHeader` (the line-based version of
`out/markdown-parser.js`): fewer than three lines, a first line that is not
`---` after trimming, or a missing closing marker all yield empty metadata
and the whole document as content. -/
def extractYamlHeader (markdown : JStr) : Metadata × JStr :=
  let lines := splitNl markdown
  if lines.length < 3 then ([], markdown)
  else
    match lines with
    | [] => ([], markdown)
    | l0 :: rest =>
      if trimWS l0 ≠ st "---" then ([], markdown)
      else
        match findMarker rest with
        | none => ([], markdown)
        | some e =>
          (parseYaml (joinNl (rest.take e)), joinNl (rest.drop (e + 1)))

/-- Does a line contribute a value for key `k` in `parseYaml`?  (Exactly
the conditions under which `parseYamlLine` performs the assignment with
key `k`.) -/
def contributesTo (k : JStr) (line : JStr) : Bool :=
  let t := trimWS line
  t ≠ [] && !startsL (st "#") t && t.contains ':' && yamlKeyOf t = k

/-- The value a contributing line assigns. -/
def yamlValueOfLine (line : JStr) : YamlValue :=
  typeYamlValue (yamlRawValueOf (trimWS line))

end MDP

namespace MDP

/-! ### The nested-list state machine: `processListsImproved`

Mirrors `out/markdown-parser.js` lines 170–505.  JS arrays with `push`/`pop`
at the end are modelled as Lean lists whose *last* element is the stack top;
the `while … pop` loops are implemented by structurally recursive helpers
over the reversed list (top first), documented at each definition. -/

/-- List kind. -/
inductive LType where
  | ul
  | ol
deriving DecidableEq

/-- Closing tag of a list kind. -/
def closeTag : LType → JStr
  | .ul => st "</ul>"
  | .ol => st "</ol>"

/-- Opening tag of a list kind. -/
def openTag : LType → JStr
  | .ul => st "<ul>"
  | .ol => st "<ol>"

/-- One open-list frame: `{type, level, counter, explicitNumbering}`.
`counter`/`explicitNumbering` are `undefined` (here `none`) for bullet
frames. -/
structure Frame where
  type : LType
  level : Nat
  counter : Option Nat
  explicitNumbering : Option Bool
deriving DecidableEq

/-- A fresh frame as pushed by `adjustListStack`. -/
def newFrame (t : LType) (lvl : Nat) : Frame :=
  { type := t, level := lvl,
    counter := if t = .ol then some 0 else none,
    explicitNumbering := if t = .ol then some false else none }

/-- One entry of `pendingLiClose`: `{level, hasBlock, lineIndex}`. -/
structure Pend where
  level : Nat
  hasBlock : Bool
  lineIndex : Nat
deriving DecidableEq

/-- Parsed list-item line: `{type, indentLevel, content, orderNumber}`. -/
structure ListItemInfo where
  type : LType
  indentLevel : Nat
  content : JStr
  orderNumber : Option Nat
deriving DecidableEq

/-- `parseInt(digits, 10)` on a non-empty digit run. -/
def parseNatL (ds : JStr) : Nat :=
  ds.foldl (fun acc c => 10 * acc + (c.toNat - '0'.toNat)) 0

/-- The indent-skipping loop of `parseListItem`, one character at a time,
carrying the length `sp` of the current run of spaces: a tab ends the run
(adding `sp / 2`) and adds one level, a full-width space (U+3000) ends the
run without adding a level, a space extends the run; any other character
stops the loop.  This computes exactly the JS loop, where each *maximal*
run of spaces contributes `floor(run / 2)` levels. -/
def countIndentAux : JStr → Nat → Nat × JStr
  | [], sp => (sp / 2, [])
  | '\t' :: cs, sp =>
    let r := countIndentAux cs 0
    (sp / 2 + 1 + r.1, r.2)
  | ' ' :: cs, sp => countIndentAux cs (sp + 1)
  | '　' :: cs, sp =>
    let r := countIndentAux cs 0
    (sp / 2 + r.1, r.2)
  | c :: cs, sp => (sp / 2, c :: cs)

/-- Indent level and remainder of a line (the JS indent-skipping loop). -/
def countIndent (l : JStr) : Nat × JStr := countIndentAux l 0

/-- Match of `/^[-+*]\s+(.+)$/` against the part after the indent: a bullet
marker, at least one whitespace, then at least one character of content.
`\s+` is greedy but backtracks so that `(.+)` keeps at least one character. -/
def matchBullet (r : JStr) : Option JStr :=
  match r with
  | [] => none
  | c :: rest =>
    if c = '-' || c = '+' || c = '*' then
      let wlen := (rest.takeWhile jsws).length
      if wlen ≥ 1 && rest.length ≥ 2 then
        some (rest.drop (Nat.min wlen (rest.length - 1)))
      else none
    else none

/-- Match of `/^(\d+)\.\s+(.+)$/` against the part after the indent. -/
def matchOrdered (r : JStr) : Option (Nat × JStr) :=
  let ds := r.takeWhile (·.isDigit)
  if ds = [] then none
  else
    match r.drop ds.length with
    | '.' :: rest =>
      let wlen := (rest.takeWhile jsws).length
      if wlen ≥ 1 && rest.length ≥ 2 then
        some (parseNatL ds, rest.drop (Nat.min wlen (rest.length - 1)))
      else none
    | _ => none

/-- Model of `MarkdownParser.parseListItem`. -/
def parseListItem (line : JStr) : Option ListItemInfo :=
  let r := countIndent line
  match matchBullet r.2 with
  | some content => some ⟨.ul, r.1, content, none⟩
  | none =>
    match matchOrdered r.2 with
    | some (n, content) => some ⟨.ol, r.1, content, some n⟩
    | none => none

/-- Model of `MarkdownParser.closeListItem`: with a block inside (or an
impossible index) push a standalone `</li>`, otherwise append `</li>` to
the recorded `<li>` line in place. -/
def closeListItemR (res : List JStr) (closing : Pend) : List JStr :=
  if closing.hasBlock || res.length = 0 then res ++ [st "</li>"]
  else if closing.lineIndex < res.length then
    res.set closing.lineIndex (res.getD closing.lineIndex [] ++ st "</li>")
  else res ++ [st "</li>"]

/-- Model of `closeAllPendingLiTags`: pop every pending entry (top of the
JS array is the list's last element) and close it. -/
def closeAllPendingR (res : List JStr) (pend : List Pend) : List JStr :=
  pend.reverse.foldl closeListItemR res

/-- Model of `closeAllLists`: pop every frame and push its closing tag. -/
def closeAllListsR (res : List JStr) (stack : List Frame) : List JStr :=
  res ++ stack.reverse.map (fun f => closeTag f.type)

/-- The `while` loop at the start of the list-item branch (lines 185–189):
pop pending `<li>`s strictly deeper than the new item, top first.  Operates
on the reversed pending list (top first). -/
def closeDeeperRev (lvl : Nat) : List JStr → List Pend → List JStr × List Pend
  | res, [] => (res, [])
  | res, p :: rest =>
    if p.level > lvl then closeDeeperRev lvl (closeListItemR res p) rest
    else (res, p :: rest)

/-- Wrapper of `closeDeeperRev` on the JS-ordered pending list. -/
def closeDeeper (res : List JStr) (pend : List Pend) (lvl : Nat) :
    List JStr × List Pend :=
  let r := closeDeeperRev lvl res pend.reverse
  (r.1, r.2.reverse)

/-- Model of `closePendingLiTagsAtSameLevel`: pop pending entries whose
level equals the current one, top first, stopping at the first other
level. -/
def closeSameRev (lvl : Nat) : List JStr → List Pend → List JStr × List Pend
  | res, [] => (res, [])
  | res, p :: rest =>
    if p.level = lvl then closeSameRev lvl (closeListItemR res p) rest
    else (res, p :: rest)

/-- Wrapper of `closeSameRev` on the JS-ordered pending list. -/
def closeSameLevel (res : List JStr) (pend : List Pend) (lvl : Nat) :
    List JStr × List Pend :=
  let r := closeSameRev lvl res pend.reverse
  (r.1, r.2.reverse)

/-- Body of `closePendingLiTagsForClosedLevels`: iterate from the top of
the pending array downwards, splicing out (and closing) every entry whose
level is at least the shallowest closed level and strictly deeper than the
current item. -/
def closeForClosedRev (shal lvl : Nat) : List JStr → List Pend → List JStr × List Pend
  | res, [] => (res, [])
  | res, p :: rest =>
    if p.level ≥ shal && p.level > lvl then
      closeForClosedRev shal lvl (closeListItemR res p) rest
    else
      let r := closeForClosedRev shal lvl res rest
      (r.1, p :: r.2)

/-- Model of `closePendingLiTagsForClosedLevels` (no-op when no level was
closed). -/
def closeForClosedLevels (res : List JStr) (pend : List Pend)
    (closedLevels : List Nat) (lvl : Nat) : List JStr × List Pend :=
  match closedLevels with
  | [] => (res, pend)
  | c :: cs =>
    let shal := cs.foldl Nat.min c
    let r := closeForClosedRev shal lvl res pend.reverse
    (r.1, r.2.reverse)

/-- Result record of `adjustListStack`. -/
structure AdjustResult where
  stack : List Frame
  closedLevels : List Nat
  closingTagsDeep : List JStr
  closingTagsSameLevel : List JStr
  openingTags : List JStr
deriving DecidableEq

/-- The leading `while` of `adjustListStack`: pop frames strictly deeper
than the current level (top first, on the reversed stack), collecting their
levels and closing tags in pop order. -/
def popDeepRev (lvl : Nat) : List Frame → List Nat × List JStr × List Frame
  | [] => ([], [], [])
  | f :: rest =>
    if f.level > lvl then
      let r := popDeepRev lvl rest
      (f.level :: r.1, closeTag f.type :: r.2.1, r.2.2)
    else ([], [], f :: rest)

/-- Model of `MarkdownParser.adjustListStack`. -/
def adjustListStack (stack : List Frame) (currentType : LType) (currentLevel : Nat) :
    AdjustResult :=
  let pd := popDeepRev currentLevel stack.reverse
  let closedLevels := pd.1
  let deep := pd.2.1
  let remRev := pd.2.2
  match remRev with
  | top :: below =>
    if top.level = currentLevel && top.type ≠ currentType then
      { stack := (newFrame currentType currentLevel :: below).reverse,
        closedLevels := closedLevels, closingTagsDeep := deep,
        closingTagsSameLevel := [closeTag top.type],
        openingTags := [openTag currentType] }
    else if top.level = currentLevel && top.type = currentType then
      { stack := remRev.reverse, closedLevels := closedLevels,
        closingTagsDeep := deep, closingTagsSameLevel := [], openingTags := [] }
    else
      { stack := (newFrame currentType currentLevel :: remRev).reverse,
        closedLevels := closedLevels, closingTagsDeep := deep,
        closingTagsSameLevel := [],
        openingTags := [openTag currentType] }
  | [] =>
    { stack := [newFrame currentType currentLevel], closedLevels := closedLevels,
      closingTagsDeep := deep, closingTagsSameLevel := [],
      openingTags := [openTag currentType] }

/-- The ordered-list item-tag block of the main loop (lines 210–224): when
the top frame is an `ol` at the item's level, update its counter —
switching to explicit numbering when the item's number is present and
either the frame is already explicit or the number differs from 1 — and
render `<li value="counter">`; otherwise render a plain `<li>`. -/
def olLiTag (stack : List Frame) (info : ListItemInfo) : List Frame × JStr :=
  if info.type = .ol then
    match stack.getLast? with
    | some f =>
      if f.type = .ol && f.level = info.indentLevel then
        let f' :=
          if info.orderNumber.isSome &&
             (f.explicitNumbering.getD false || info.orderNumber ≠ some 1) then
            { f with explicitNumbering := some true, counter := info.orderNumber }
          else
            { f with counter := some (f.counter.getD 0 + 1) }
        (stack.dropLast ++ [f'],
         st "<li value=\"" ++ natToStr (f'.counter.getD 1) ++ st "\">")
      else (stack, st "<li>")
    | none => (stack, st "<li>")
  else (stack, st "<li>")

/-- Mark the top pending `<li>` as containing a block. -/
def setLastHasBlock (pend : List Pend) : List Pend :=
  match pend.getLast? with
  | some p => pend.dropLast ++ [{ p with hasBlock := true }]
  | none => pend

/-- Match of `/^#{1,6}\s+/` against a trimmed line. -/
def isHeadingLead (t : JStr) : Bool :=
  let run := (t.takeWhile (· = '#')).length
  1 ≤ run && run ≤ 6 &&
    (match t.drop run with
     | c :: _ => jsws c
     | [] => false)

/-- Match of `/^[ \t]+/` against the raw line. -/
def leadsSpTab (line : JStr) : Bool :=
  match line with
  | c :: _ => c = ' ' || c = '\t'
  | [] => false

/-- The main loop of `processListsImproved`, one recursive step per input
line, carrying `(result, listStack, pendingLiClose)`; at end of input all
pending `<li>`s and every remaining frame are closed. -/
def listLoop : List JStr → List JStr → List Frame → List Pend → List JStr
  | [], res, stack, pend => closeAllListsR (closeAllPendingR res pend) stack
  | line :: rest, res, stack, pend =>
    let t := trimWS line
    match parseListItem line with
    | some info =>
      let d := closeDeeper res pend info.indentLevel
      let res1 := d.1
      let pend1 := d.2
      let pend2 :=
        match stack.getLast? with
        | some f =>
          if f.level < info.indentLevel && pend1 ≠ [] then setLastHasBlock pend1
          else pend1
        | none => pend1
      let adj := adjustListStack stack info.type info.indentLevel
      let fc := closeForClosedLevels res1 pend2 adj.closedLevels info.indentLevel
      let res3 := fc.1 ++ adj.closingTagsDeep
      let sl := closeSameLevel res3 fc.2 info.indentLevel
      let res5 := sl.1 ++ adj.closingTagsSameLevel ++ adj.openingTags
      let lineIndex := res5.length
      let ol := olLiTag adj.stack info
      listLoop rest (res5 ++ [ol.2 ++ info.content]) ol.1
        (sl.2 ++ [⟨info.indentLevel, false, lineIndex⟩])
    | none =>
      if stack ≠ [] && pend ≠ [] && t ≠ [] && leadsSpTab line then
        listLoop rest (res ++ [st "<br>" ++ t]) stack (setLastHasBlock pend)
      else if stack ≠ [] && t = [] then
        listLoop rest (closeAllListsR (closeAllPendingR res pend) stack ++ [line]) [] []
      else if isHeadingLead t then
        listLoop rest (closeAllListsR (closeAllPendingR res pend) stack ++ [line]) [] []
      else if t.contains '|' && (splitCh '|' t).length ≥ 3 then
        listLoop rest (closeAllListsR (closeAllPendingR res pend) stack ++ [line]) [] []
      else if stack ≠ [] then
        listLoop rest (closeAllListsR (closeAllPendingR res pend) stack ++ [line]) [] []
      else
        listLoop rest (res ++ [line]) stack pend

/-- Model of `MarkdownParser.processListsImproved`. -/
def processListsImproved (text : JStr) : JStr :=
  joinNl (listLoop (splitNl text) [] [] [])

end MDP

namespace MDP

/-! ### Tables: `processTables`

Mirrors `out/markdown-parser.js` lines 509–587. -/

/-- One segment of the separator-row pattern: at least one character, all
of them whitespace, `:` or `-`, with at least one `-` (this is exactly the
language of `[\s:-]*-[\s:-]*`). -/
def sepSeg (p : JStr) : Bool :=
  p ≠ [] && p.all (fun c => jsws c || c = ':' || c = '-') && p.contains '-'

/-- Decision procedure for the separator-row regex
`/^\|?[\s:-]*-[\s:-]*(\|[\s:-]*-[\s:-]*)+\|?$/`.  Splitting on `|`, the
regex holds iff after removing one leading empty field (the optional
leading pipe) and one trailing empty field (the optional trailing pipe)
there remain at least two fields and every field is a `sepSeg`. -/
def isSeparatorLine (t : JStr) : Bool :=
  let ps := splitCh '|' t
  let ps1 := match ps with
    | [] :: rest => rest
    | other => other
  let ps2 := if ps1.getLast? = some [] then ps1.dropLast else ps1
  ps2.length ≥ 2 && ps2.all sepSeg

/-- Model of `MarkdownParser.parseTableRow`: trim, strip one leading and
one trailing pipe, split on `|`, trim every cell. -/
def parseTableRow (line : JStr) : List JStr :=
  let t := trimWS line
  let c1 := if startsL (st "|") t then t.drop 1 else t
  let c2 := if endsL (st "|") c1 then c1.dropLast else c1
  (splitCh '|' c2).map trimWS

/-- Header-row tags emitted when a separator row turns the previously
emitted line into a table header. -/
def tableHeaderTags (headerLine : JStr) : List JStr :=
  [st "<table>", st "<thead><tr>"] ++
    (parseTableRow headerLine).map (fun c => st "<th>" ++ c ++ st "</th>") ++
    [st "</tr></thead><tbody>"]

/-- Body-row tags for a data row. -/
def tableRowTags (t : JStr) : List JStr :=
  [st "<tr>"] ++ (parseTableRow t).map (fun c => st "<td>" ++ c ++ st "</td>") ++
    [st "</tr>"]

/-- One line of the `processTables` loop over
`(result, inTable, isHeaderProcessed)`.  A separator row seen outside a
table pops the previously emitted line: if the pop yields nothing the flag
is simply set; if it yields an empty (falsy) string that line is dropped;
otherwise the popped line becomes the table header. -/
def tableStep (stt : List JStr × Bool × Bool) (line : JStr) : List JStr × Bool × Bool :=
  let res := stt.1
  let inT := stt.2.1
  let hp := stt.2.2
  let t := trimWS line
  if t.contains '|' then
    if isSeparatorLine t then
      if inT then (res, inT, hp)
      else
        match res.getLast? with
        | none => (res, true, hp)
        | some hl =>
          if hl = [] then (res.dropLast, true, hp)
          else (res.dropLast ++ tableHeaderTags hl, true, true)
    else if inT then (res ++ tableRowTags t, inT, hp)
    else (res ++ [line], inT, hp)
  else if inT then (res ++ [st "</tbody></table>", line], false, false)
  else (res ++ [line], inT, hp)

/-- Closing of a table left open at end of input. -/
def tableFinalize (stt : List JStr × Bool × Bool) : List JStr :=
  if stt.2.1 then stt.1 ++ [st "</tbody></table>"] else stt.1

/-- Model of `MarkdownParser.processTables`. -/
def processTables (text : JStr) : JStr :=
  joinNl (tableFinalize ((splitNl text).foldl tableStep ([], false, false)))

end MDP

namespace MDP

/-! ### Code fences, horizontal rules, headings and the inline stages -/

/-- JS `\w`: ASCII letters, digits, underscore. -/
def isWordCh (c : Char) : Bool := c.isAlpha || c.isDigit || c = '_'

/-- Search the text for the first occurrence of `"\n```"` — the non-greedy
closing of `/```(\w+)?\n(.*?)\n```/s` — returning the interior before it
and the rest after the closing backticks. -/
def findCloseFence : JStr → Option (JStr × JStr)
  | [] => none
  | c :: cs =>
    if startsL (st "\n```") (c :: cs) then some ([], (c :: cs).drop 4)
    else (findCloseFence cs).map (fun r => (c :: r.1, r.2))

/-- The replacement callback of `processCodeBlocks`: escape the interior
and turn its newlines into `<br>`. -/
def fenceBody (lang code : JStr) : JStr :=
  let cls := if lang = [] then [] else st " class=\"language-" ++ lang ++ st "\""
  st "<pre><code" ++ cls ++ st ">" ++
    (escapeHtml code).flatMap (fun c => if c = '\n' then st "<br>" else [c]) ++
    st "</code></pre>"

/-- Matcher of `/```(\w+)?\n(.*?)\n```/gs` at one position: three
backticks, an optional word run (the language tag), a newline, then the
non-greedy interior up to the first `"\n```"`. -/
def fenceMatch (cs : JStr) : Option (JStr × JStr) :=
  if startsL (st "```") cs then
    let afterTicks := cs.drop 3
    let lang := afterTicks.takeWhile isWordCh
    match afterTicks.dropWhile isWordCh with
    | '\n' :: body => (findCloseFence body).map (fun r => (fenceBody lang r.1, r.2))
    | _ => none
  else none

/-- Model of `MarkdownParser.processCodeBlocks`. -/
def processCodeBlocks (text : JStr) : JStr := scanR fenceMatch text.length text

/-- The fixed replacement of `processHorizontalRules`. -/
def hrString : JStr :=
  st "<hr style=\"border: none; border-top: 1px solid black; margin: 1em 0;\" />"

/-- Matcher of `/^[\s]*(---|___|\*\*\*)[\s]*$/gm` at a line start: greedy
leading whitespace (which, via `\s`, may span newlines) backtracked until a
marker fits, then greedy trailing whitespace backtracked until an
end-of-line holds.  Returns `(consumed, replacement, rest)`. -/
def hrMatch (cs : JStr) : Option (JStr × JStr × JStr) :=
  let w1 := (cs.takeWhile jsws).length
  descFind (fun j =>
    let r1 := cs.drop j
    if startsL (st "---") r1 || startsL (st "___") r1 || startsL (st "***") r1 then
      let r2 := r1.drop 3
      let w2 := (r2.takeWhile jsws).length
      descFind (fun k =>
        match r2.drop k with
        | [] => some (cs.take (j + 3 + k), hrString, [])
        | '\n' :: _ => some (cs.take (j + 3 + k), hrString, r2.drop k)
        | _ => none) w2
    else none) w1

/-- Model of `MarkdownParser.processHorizontalRules`. -/
def processHorizontalRules (text : JStr) : JStr :=
  scanAnchR hrMatch text.length true text

/-- Matcher of `/^(#{1,6})\s+(.+)$/gm` at a line start: one to six hashes,
at least one whitespace (greedy, backtracked so the title keeps at least
one non-newline character), then the title up to the end of the line. -/
def headingMatch (cs : JStr) : Option (JStr × JStr × JStr) :=
  let run := (cs.takeWhile (· = '#')).length
  if 1 ≤ run && run ≤ 6 then
    let after := cs.drop run
    let w := (after.takeWhile jsws).length
    descFind (fun j =>
      if j = 0 then none
      else
        match after.drop j with
        | [] => none
        | c :: rest =>
          if c = '\n' then none
          else
            let title := c :: rest.takeWhile (· ≠ '\n')
            let consumed := cs.take (run + j + title.length)
            let hTag := st "<h" ++ natToStr run ++ st ">"
            some (consumed,
                  hTag ++ trimWS title ++ st "</h" ++ natToStr run ++ st ">",
                  cs.drop (run + j + title.length))) w
  else none

/-- Model of `MarkdownParser.processHeadings`. -/
def processHeadings (text : JStr) : JStr :=
  scanAnchR headingMatch text.length true text

/-- Matcher for an inline pair pattern such as `/\*\*(.+?)\*\*/g`: after
the opening `mark`, the non-greedy interior runs to the first later
occurrence of `mark`, may not contain a newline and has at least one
character. -/
def seekPair (mark : JStr) : JStr → Option (JStr × JStr)
  | [] => none
  | c :: rest =>
    if c = '\n' then none
    else if startsL mark rest then some ([c], rest.drop mark.length)
    else (seekPair mark rest).map (fun r => (c :: r.1, r.2))

/-- Generic two-sided inline replacement (`**…**`, `__…__`, `~~…~~`). -/
def pairMatch (mark : JStr) (tagO tagC : JStr) (cs : JStr) : Option (JStr × JStr) :=
  if startsL mark cs then
    (seekPair mark (cs.drop mark.length)).map
      (fun r => (tagO ++ r.1 ++ tagC, r.2))
  else none

/-- Model of `MarkdownParser.processBold` (`**` first, then `__`). -/
def processBold (text : JStr) : JStr :=
  let t1 := scanR (pairMatch (st "**") (st "<strong>") (st "</strong>")) text.length text
  scanR (pairMatch (st "__") (st "<strong>") (st "</strong>")) t1.length t1

/-- Model of `MarkdownParser.processStrikethrough`. -/
def processStrikethrough (text : JStr) : JStr :=
  scanR (pairMatch (st "~~") (st "<del>") (st "</del>")) text.length text

/-- Matcher of `/`([^`]+?)`/g`: a backtick, at least one non-backtick
character up to the next backtick, that backtick. -/
def inlineCodeMatch (cs : JStr) : Option (JStr × JStr) :=
  match cs with
  | '`' :: rest =>
    let interior := rest.takeWhile (· ≠ '`')
    if interior = [] then none
    else
      match rest.drop interior.length with
      | '`' :: after => some (st "<code>" ++ interior ++ st "</code>", after)
      | _ => none
  | _ => none

/-- Model of `MarkdownParser.processInlineCode`. -/
def processInlineCode (text : JStr) : JStr :=
  scanR inlineCodeMatch text.length text

/-- Matcher of `/!\[([^\]]*)\]\(([^)]+)\)/g`. -/
def imageMatch (cs : JStr) : Option (JStr × JStr) :=
  match cs with
  | '!' :: '[' :: rest =>
    let alt := rest.takeWhile (· ≠ ']')
    match rest.drop alt.length with
    | ']' :: '(' :: r2 =>
      let src := r2.takeWhile (· ≠ ')')
      if src = [] then none
      else
        match r2.drop src.length with
        | ')' :: after =>
          some (st "<img src=\"" ++ src ++ st "\" alt=\"" ++ alt ++ st "\">", after)
        | _ => none
    | _ => none
  | _ => none

/-- Model of `MarkdownParser.processImages`. -/
def processImages (text : JStr) : JStr := scanR imageMatch text.length text

/-- Matcher of `/\[([^\]]+)\]\(([^)]+)\)/g`. -/
def linkMatch (cs : JStr) : Option (JStr × JStr) :=
  match cs with
  | '[' :: rest =>
    let txt := rest.takeWhile (· ≠ ']')
    if txt = [] then none
    else
      match rest.drop txt.length with
      | ']' :: '(' :: r2 =>
        let href := r2.takeWhile (· ≠ ')')
        if href = [] then none
        else
          match r2.drop href.length with
          | ')' :: after =>
            some (st "<a href=\"" ++ href ++ st "\">" ++ txt ++ st "</a>", after)
          | _ => none
      | _ => none
  | _ => none

/-- Model of `MarkdownParser.processLinks`. -/
def processLinks (text : JStr) : JStr := scanR linkMatch text.length text

end MDP

namespace MDP

/-! ### Paragraphs: `processParagraphsImproved` and its helpers -/

/-- Does the generic tag pattern `/<\/?[a-zA-Z][a-zA-Z0-9]*(?:\s+[^>]*)?>/`
match at the head of `cs`?  After `<`, an optional `/`, a letter, a run of
alphanumerics, then either `>` immediately or at least one whitespace
followed by non-`>` characters and a `>` (i.e. a later `>` exists). -/
def tagAtHead (cs : JStr) : Bool :=
  match cs with
  | '<' :: r0 =>
    let r1 := match r0 with
      | '/' :: r => r
      | r => r
    match r1 with
    | c :: r2 =>
      if c.isAlpha then
        let r3 := r2.dropWhile (fun d => d.isAlpha || d.isDigit)
        match r3 with
        | '>' :: _ => true
        | d :: _ => jsws d && r3.contains '>'
        | [] => false
      else false
    | [] => false
  | _ => false

/-- Substring test for the generic tag pattern (JS `RegExp.test`). -/
def hasHtmlTag : JStr → Bool
  | [] => false
  | c :: cs => tagAtHead (c :: cs) || hasHtmlTag cs

/-- The fixed tag list of `isStructuralHtmlTag` in
`out/markdown-parser.js`. -/
def structuralTags : List JStr :=
  [st "h1", st "h2", st "h3", st "h4", st "h5", st "h6",
   st "p", st "div", st "section", st "article", st "nav", st "aside",
   st "header", st "footer",
   st "ul", st "ol", st "li", st "dl", st "dt", st "dd",
   st "table", st "thead", st "tbody", st "tfoot", st "tr", st "th", st "td",
   st "pre", st "code", st "blockquote",
   st "form", st "fieldset", st "legend",
   st "hr", st "a", st "img", st "span", st "strong", st "em", st "i",
   st "b", st "u", st "del", st "ins",
   st "script", st "style", st "br", st "hr"]

/-- Tag name extracted by `/^<\/?([a-zA-Z][a-zA-Z0-9]*)/`, lower-cased. -/
def leadTagName (t : JStr) : Option JStr :=
  match t with
  | '<' :: r0 =>
    let r1 := match r0 with
      | '/' :: r => r
      | r => r
    match r1 with
    | c :: r2 =>
      if c.isAlpha then
        some ((c :: r2.takeWhile (fun d => d.isAlpha || d.isDigit)).map Char.toLower)
      else none
    | [] => none
  | _ => none

/-- Model of `MarkdownParser.isStructuralHtmlTag` (the permissive version
of `out/markdown-parser.js`): any line containing a full HTML tag counts,
otherwise a line starting with a known structural tag name. -/
def isStructuralHtmlTag (line : JStr) : Bool :=
  let t := trimWS line
  if hasHtmlTag t then true
  else if !startsL (st "<") t then false
  else
    match leadTagName t with
    | some nm => structuralTags.contains nm
    | none => false

/-- Model of `MarkdownParser.isProcessedHtmlTag`. -/
def isProcessedHtmlTag (line : JStr) : Bool :=
  let t := trimWS line
  (startsL (st "<ul>") t || startsL (st "</ul>") t ||
   startsL (st "<ol>") t || startsL (st "</ol>") t ||
   startsL (st "<li>") t || startsL (st "</li>") t) ||
  ((st "123456").any (fun d =>
      startsL (st "<h" ++ [d] ++ st ">") t || startsL (st "</h" ++ [d] ++ st ">") t)) ||
  ((([st "table", st "thead", st "tbody", st "tfoot", st "tr", st "th", st "td"]).any
      (fun nm => startsL (st "<" ++ nm ++ st ">") t || startsL (st "</" ++ nm ++ st ">") t))) ||
  ((match t.drop 3 with
    | c :: _ => startsL (st "<hr") t && jsws c
    | [] => false) || t = st "<hr>" || t = st "<hr />")

/-- Model of `MarkdownParser.isListOrTableLine`. -/
def isListOrTableLine (line : JStr) : Bool :=
  let t := trimWS line
  (match t with
   | c :: d :: _ => (c = '-' || c = '+' || c = '*') && jsws d
   | _ => false) ||
  (let ds := t.takeWhile (·.isDigit)
   ds ≠ [] &&
     (match t.drop ds.length with
      | '.' :: e :: _ => jsws e
      | _ => false)) ||
  (t.contains '|' && (splitCh '|' t).length ≥ 2) ||
  (startsL (st "<ul>") t || startsL (st "</ul>") t ||
   startsL (st "<ol>") t || startsL (st "</ol>") t ||
   startsL (st "<li>") t || endsL (st "</li>") t)

/-- Model of `MarkdownParser.preserveLeadingSpaces`. -/
def preserveLeadingSpaces (line : JStr) : JStr :=
  let lead := line.takeWhile jsws
  let content := line.dropWhile jsws
  lead.flatMap (fun c =>
    if c = ' ' then st "&nbsp;"
    else if c = '　' then st "&#12288;"
    else if c = '\t' then st "&nbsp;&nbsp;&nbsp;&nbsp;"
    else [c]) ++ content

/-- Flush of the paragraph buffer. -/
def flushPara (res : List JStr) (para : List JStr) : List JStr :=
  if para = [] then res else res ++ [st "<p>" ++ joinBr para ++ st "</p>"]

/-- The loop of `processParagraphsImproved` over `(result, buffer)`. -/
def paraStep (stt : List JStr × List JStr) (line : JStr) : List JStr × List JStr :=
  let res := stt.1
  let para := stt.2
  let t := trimWS line
  if isStructuralHtmlTag t || startsL (st "<") t ||
     (match t with
      | '<' :: c :: _ => c.isAlpha
      | _ => false) ||
     isListOrTableLine line || isProcessedHtmlTag line then
    (flushPara res para ++ [line], [])
  else if t = [] then
    (flushPara res para, [])
  else
    (res, para ++ [preserveLeadingSpaces line])

/-- Model of `MarkdownParser.processParagraphsImproved`. -/
def processParagraphsImproved (text : JStr) : JStr :=
  let fin := (splitNl text).foldl paraStep ([], [])
  joinNl (flushPara fin.1 fin.2)

/-- Model of `MarkdownParser.convertToHtml`: the fixed stage order of
`out/markdown-parser.js` lines 84–103. -/
def convertToHtml (content : JStr) : JStr :=
  let h1 := processCodeBlocks content
  let h2 := processHorizontalRules h1
  let h3 := processHeadings h2
  let h4 := processTables h3
  let h5 := processListsImproved h4
  let h6 := processBold h5
  let h7 := processStrikethrough h6
  let h8 := processInlineCode h7
  let h9 := processImages h8
  let h10 := processLinks h9
  processParagraphsImproved h10

end MDP

namespace MDP

/-! ### A stack-based list-tag validator

Formalisation of the validator named by the spec's list-closing invariant:
scan the output lines for the list tags the stage emits (`<ul>`, `</ul>`,
`<ol>`, `</ol>`, standalone `</li>` lines, and lines opening an `<li>`,
possibly closed on the same line), and check LIFO discipline with an empty
final stack. -/

/-- List-tag tokens. -/
inductive TagTok where
  | oUl
  | cUl
  | oOl
  | cOl
  | oLi
  | cLi
deriving DecidableEq

/-- Tag tokens contributed by one output line. -/
def lineTagToks (l : JStr) : List TagTok :=
  if l = st "<ul>" then [.oUl]
  else if l = st "</ul>" then [.cUl]
  else if l = st "<ol>" then [.oOl]
  else if l = st "</ol>" then [.cOl]
  else if l = st "</li>" then [.cLi]
  else if startsL (st "<li") l then
    [.oLi] ++ (if endsL (st "</li>") l then [.cLi] else [])
  else if endsL (st "</li>") l then [.cLi]
  else []

/-- One validator step over an optional stack (`none` = already failed). -/
def validStep (stt : Option (List TagTok)) (t : TagTok) : Option (List TagTok) :=
  stt.bind fun stk =>
    match t with
    | .oUl => some (.oUl :: stk)
    | .oOl => some (.oOl :: stk)
    | .oLi => some (.oLi :: stk)
    | .cUl =>
      match stk with
      | .oUl :: r => some r
      | _ => none
    | .cOl =>
      match stk with
      | .oOl :: r => some r
      | _ => none
    | .cLi =>
      match stk with
      | .oLi :: r => some r
      | _ => none

/-- Does the stack-based validator accept the list tags of `out`? -/
def tagBalanced (out : JStr) : Bool :=
  ((splitNl out).flatMap lineTagToks).foldl validStep (some []) = some []

end MDP


namespace MDP

/-! ### Supporting lemmas -/

theorem jsws_not_marker {c : Char} (h : jsws c = true) :
    c ≠ '-' ∧ c ≠ '+' ∧ c ≠ '*' ∧ c.isDigit = false := by
  simp only [jsws, jswsChars, List.contains_eq_any_beq, List.any_cons, List.any_nil,
    Bool.or_eq_true, beq_iff_eq] at h
  rcases h with h | h | h | h | h | h | h | h | h | h
  all_goals try (subst h; exact ⟨by decide, by decide, by decide, by decide⟩)
  exact absurd h (by simp)

theorem all_jsws_of_trim_nil {l : JStr} (h : trimWS l = []) :
    ∀ c ∈ l, jsws c = true := by
  unfold trimWS at h
  rw [List.reverse_eq_nil_iff, List.dropWhile_eq_nil_iff] at h
  have hall : ∀ c ∈ l.dropWhile jsws, jsws c = true := by
    intro c hc
    exact h c (by simpa using hc)
  intro c hc
  have hsplit : l = l.takeWhile jsws ++ l.dropWhile jsws :=
    (List.takeWhile_append_dropWhile (p := jsws) (l := l)).symm
  rw [hsplit] at hc
  rcases List.mem_append.mp hc with h1 | h1
  · exact List.mem_takeWhile_imp h1
  · exact hall c h1

theorem countIndentAux_snd_mem {l : JStr} :
    ∀ sp c, c ∈ (countIndentAux l sp).2 → c ∈ l := by
  induction l with
  | nil => intro sp c hc; simp [countIndentAux] at hc
  | cons a as ih =>
    intro sp c hc
    by_cases ha1 : a = '\t'
    · subst ha1
      simp only [countIndentAux] at hc
      exact List.mem_cons_of_mem _ (ih 0 c hc)
    · by_cases ha2 : a = ' '
      · subst ha2
        simp only [countIndentAux] at hc
        exact List.mem_cons_of_mem _ (ih (sp + 1) c hc)
      · by_cases ha3 : a = '　'
        · subst ha3
          simp only [countIndentAux] at hc
          exact List.mem_cons_of_mem _ (ih 0 c hc)
        · rw [countIndentAux.eq_5 sp a as (fun h => ha1 h) (fun h => ha2 h)
            (fun h => ha3 h)] at hc
          exact hc

theorem parseListItem_of_all_ws {l : JStr} (h : ∀ c ∈ l, jsws c = true) :
    parseListItem l = none := by
  have hb : matchBullet (countIndent l).2 = none := by
    unfold matchBullet
    cases hr : (countIndent l).2 with
    | nil => rfl
    | cons c rest =>
      have hcmem : c ∈ l := by
        refine countIndentAux_snd_mem 0 c ?_
        simp only [countIndent] at hr
        rw [hr]
        exact List.mem_cons_self c rest
      have hm := jsws_not_marker (h c hcmem)
      simp [hm.1, hm.2.1, hm.2.2.1]
  have ho : matchOrdered (countIndent l).2 = none := by
    unfold matchOrdered
    cases hr : (countIndent l).2 with
    | nil => simp
    | cons c rest =>
      have hcmem : c ∈ l := by
        refine countIndentAux_snd_mem 0 c ?_
        simp only [countIndent] at hr
        rw [hr]
        exact List.mem_cons_self c rest
      have hm := jsws_not_marker (h c hcmem)
      have hds : (c :: rest).takeWhile (·.isDigit) = [] := by
        simp [List.takeWhile, hm.2.2.2]
      simp [hds]
  simp only [parseListItem, hb, ho]

end MDP

namespace MDP

theorem lookup_map_self (md : Metadata) (k : JStr) (v : YamlValue)
    (ha : md.any (fun p => p.1 = k) = true) :
    lookupKey (md.map (fun p => if p.1 = k then (k, v) else p)) k = some v := by
  induction md with
  | nil => simp at ha
  | cons p ps ih =>
    simp only [List.any_cons, Bool.or_eq_true] at ha
    by_cases hp : p.1 = k
    · simp [lookupKey, List.find?, hp]
    · have hps : ps.any (fun p => p.1 = k) = true := by
        rcases ha with h | h
        · exact absurd (by simpa using h) hp
        · exact h
      simp only [List.map_cons, if_neg hp]
      simp only [lookupKey, List.find?] at ih ⊢
      rw [show (decide (p.1 = k)) = false by simpa using hp]
      exact ih hps

theorem lookup_map_other (md : Metadata) (k k' : JStr) (v : YamlValue)
    (h : k' ≠ k) :
    lookupKey (md.map (fun p => if p.1 = k' then (k', v) else p)) k = lookupKey md k := by
  induction md with
  | nil => simp
  | cons p ps ih =>
    by_cases hp : p.1 = k'
    · simp only [List.map_cons, if_pos hp]
      simp only [lookupKey, List.find?]
      rw [show (decide (k' = k)) = false by simpa using h]
      rw [show (decide (p.1 = k)) = false by simp [hp, h]]
      simpa [lookupKey] using ih
    · simp only [List.map_cons, if_neg hp]
      simp only [lookupKey, List.find?]
      by_cases hk : p.1 = k
      · rw [show (decide (p.1 = k)) = true by simpa using hk]
      · rw [show (decide (p.1 = k)) = false by simpa using hk]
        simpa [lookupKey] using ih

theorem lookup_append_single (md : Metadata) (k k' : JStr) (v : YamlValue) :
    lookupKey (md ++ [(k', v)]) k =
      match lookupKey md k with
      | some r => some r
      | none => if k' = k then some v else none := by
  induction md with
  | nil => by_cases h : k' = k <;> simp [lookupKey, List.find?, h]
  | cons p ps ih =>
    simp only [List.cons_append, lookupKey, List.find?] at ih ⊢
    by_cases hk : p.1 = k
    · rw [show (decide (p.1 = k)) = true by simpa using hk]
      rfl
    · rw [show (decide (p.1 = k)) = false by simpa using hk]
      exact ih

theorem lookupKey_setKey_self (md : Metadata) (k : JStr) (v : YamlValue) :
    lookupKey (setKey md k v) k = some v := by
  unfold setKey
  by_cases h : md.any (fun p => p.1 = k)
  · rw [if_pos h]
    exact lookup_map_self md k v h
  · rw [if_neg h]
    rw [lookup_append_single md k k v]
    have hnone : lookupKey md k = none := by
      have hfind : md.find? (fun p => decide (p.1 = k)) = none := by
        rw [List.find?_eq_none]
        intro p hp
        simp only [List.any_eq_true] at h
        push_neg at h
        simpa using h p hp
      unfold lookupKey
      rw [hfind]
      rfl
    rw [hnone]
    simp

theorem lookupKey_setKey_other (md : Metadata) (k k' : JStr) (v : YamlValue)
    (h : k' ≠ k) : lookupKey (setKey md k' v) k = lookupKey md k := by
  unfold setKey
  by_cases ha : md.any (fun p => p.1 = k')
  · rw [if_pos ha]
    exact lookup_map_other md k k' v h
  · rw [if_neg ha]
    rw [lookup_append_single md k k' v]
    rw [if_neg h]
    cases hl : lookupKey md k <;> rfl

theorem parseYamlLine_lookup (md : Metadata) (line : JStr) (k : JStr) :
    lookupKey (parseYamlLine md line) k =
      if contributesTo k line then some (yamlValueOfLine line) else lookupKey md k := by
  by_cases h1 : trimWS line = []
  · simp [parseYamlLine, contributesTo, h1]
  · by_cases h2 : startsL (st "#") (trimWS line) = true
    · simp [parseYamlLine, contributesTo, h1, h2]
    · by_cases h3 : (trimWS line).contains ':' = true
      · have hm : ':' ∈ trimWS line := by simpa using h3
        by_cases h4 : yamlKeyOf (trimWS line) = k
        · simp [parseYamlLine, contributesTo, yamlValueOfLine, h1, h2, h3, hm, h4,
            lookupKey_setKey_self]
        · simp [parseYamlLine, contributesTo, h1, h2, h3, hm, h4,
            lookupKey_setKey_other _ _ _ _ h4]
      · have hm : ¬ (':' ∈ trimWS line) := by simpa using h3
        simp [parseYamlLine, contributesTo, h1, h2, h3, hm]

theorem parseYaml_foldl_lookup (k : JStr) (lines : List JStr) (acc : Metadata) :
    lookupKey (lines.foldl parseYamlLine acc) k =
      match (lines.filter (contributesTo k)).getLast? with
      | some l => some (yamlValueOfLine l)
      | none => lookupKey acc k := by
  induction lines using List.reverseRecOn generalizing acc with
  | nil => simp
  | append_singleton ls l ih =>
    rw [List.foldl_append]
    simp only [List.foldl_cons, List.foldl_nil]
    rw [parseYamlLine_lookup]
    rw [List.filter_append]
    by_cases hc : contributesTo k l
    · rw [if_pos hc]
      have : List.filter (contributesTo k) [l] = [l] := by simp [hc]
      rw [this, List.getLast?_concat]
    · rw [if_neg hc]
      have : List.filter (contributesTo k) [l] = [] := by simp [hc]
      rw [this, List.append_nil]
      exact ih acc

end MDP

namespace MDP

/-- Full-width spaces before the marker contribute nothing to the level. -/
theorem countIndentAux_fw (k : Nat) (r : JStr) :
    countIndentAux (repC k '　' ++ r) 0 = countIndentAux r 0 := by
  induction k with
  | zero => simp [repC]
  | succ k ih =>
    simp only [repC, List.replicate_succ, List.cons_append, countIndentAux,
      List.append_eq] at ih ⊢
    rw [ih]
    simp

/-- Each leading tab adds one level. -/
theorem countIndentAux_tab (n : Nat) (r : JStr) :
    countIndentAux (repC n '\t' ++ r) 0 =
      (n + (countIndentAux r 0).1, (countIndentAux r 0).2) := by
  induction n with
  | zero => simp [repC]
  | succ n ih =>
    simp only [repC, List.replicate_succ, List.cons_append, countIndentAux,
      List.append_eq] at ih ⊢
    rw [ih]
    rw [Prod.mk.injEq]
    exact ⟨by omega, rfl⟩

/-- A run of `m` spaces before a non-indent character adds `m / 2` levels
(together with the pending run `sp`). -/
theorem countIndentAux_sp (b : Char) (rest : JStr)
    (hb1 : b ≠ '\t') (hb2 : b ≠ ' ') (hb3 : b ≠ '　') :
    ∀ (m sp : Nat), countIndentAux (repC m ' ' ++ b :: rest) sp =
      ((sp + m) / 2, b :: rest) := by
  intro m
  induction m with
  | zero =>
    intro sp
    simp only [repC, List.replicate, List.nil_append]
    rw [countIndentAux.eq_5 sp b rest (fun h => hb1 h) (fun h => hb2 h) (fun h => hb3 h)]
    simp
  | succ m ih =>
    intro sp
    simp only [repC, List.replicate_succ, List.cons_append, countIndentAux,
      List.append_eq] at ih ⊢
    rw [ih (sp + 1)]
    have h : sp + 1 + m = sp + (m + 1) := by omega
    rw [h]

/-- `parseListItem` on a canonical bullet line: full-width spaces are
ignored, tabs count one level each, spaces `m / 2` levels. -/
theorem parseListItem_bullet_canonical (k n m : Nat) (b x : Char) (c' : JStr)
    (hbt : b ≠ '\t') (hbs : b ≠ ' ') (hbf : b ≠ '　')
    (hcond : (decide (b = '-') || decide (b = '+') || decide (b = '*')) = true)
    (hx : jsws x = false) :
    parseListItem (repC k '　' ++ (repC n '\t' ++ (repC m ' ' ++ b :: ' ' :: x :: c'))) =
      some ⟨.ul, n + m / 2, x :: c', none⟩ := by
  have hci : countIndent (repC k '　' ++ (repC n '\t' ++ (repC m ' ' ++ b :: ' ' :: x :: c'))) =
      (n + m / 2, b :: ' ' :: x :: c') := by
    unfold countIndent
    rw [countIndentAux_fw, countIndentAux_tab, countIndentAux_sp b _ hbt hbs hbf m 0]
    simp
  have hwl : (List.takeWhile jsws (' ' :: x :: c')) = [' '] := by
    simp [List.takeWhile, hx]
    decide
  have hmb : matchBullet (b :: ' ' :: x :: c') = some (x :: c') := by
    simp only [matchBullet, hwl, hcond]
    norm_num
  simp only [parseListItem, hci, hmb]

/-- `parseListItem` on a canonical numbered line (`1.`), same level
computation. -/
theorem parseListItem_ordered_canonical (k n m : Nat) (x : Char) (c' : JStr)
    (hx : jsws x = false) :
    parseListItem (repC k '　' ++ (repC n '\t' ++ (repC m ' ' ++ '1' :: '.' :: ' ' :: x :: c'))) =
      some ⟨.ol, n + m / 2, x :: c', some 1⟩ := by
  have hci : countIndent (repC k '　' ++ (repC n '\t' ++ (repC m ' ' ++ '1' :: '.' :: ' ' :: x :: c'))) =
      (n + m / 2, '1' :: '.' :: ' ' :: x :: c') := by
    unfold countIndent
    rw [countIndentAux_fw, countIndentAux_tab,
      countIndentAux_sp '1' _ (by decide) (by decide) (by decide) m 0]
    simp
  have hwl : (List.takeWhile jsws (' ' :: x :: c')) = [' '] := by
    simp [List.takeWhile, hx]
    decide
  have hmb : matchBullet ('1' :: '.' :: ' ' :: x :: c') = none := by
    simp [matchBullet]
  have hds : List.takeWhile (fun c => c.isDigit) ('1' :: '.' :: ' ' :: x :: c') = ['1'] := by
    simp [List.takeWhile]
  have hmo : matchOrdered ('1' :: '.' :: ' ' :: x :: c') = some (1, x :: c') := by
    simp only [matchOrdered, hds, hwl]
    norm_num
    rw [hwl]
    refine ⟨by norm_num, by decide, ?_⟩
    have hmin : Nat.min ([' '] : JStr).length (c'.length + 1) = 1 := by
      simp
    rw [hmin]
    rfl
  simp only [parseListItem, hci, hmb, hmo]

end MDP

namespace MDP

theorem hasSubL_of_suffix {pat t u : JStr} (hs : t <:+ u) (h : hasSubL pat t = true) :
    hasSubL pat u = true := by
  induction u with
  | nil =>
    rw [List.suffix_nil] at hs
    subst hs
    exact h
  | cons c cs ih =>
    rcases List.suffix_cons_iff.mp hs with h1 | h1
    · subst h1
      exact h
    · simp only [hasSubL, Bool.or_eq_true]
      exact Or.inr (ih h1)

theorem findCloseFence_some_hasSub {b : JStr} {r : JStr × JStr}
    (h : findCloseFence b = some r) : hasSubL (st "\n```") b = true := by
  induction b generalizing r with
  | nil => simp [findCloseFence] at h
  | cons c cs ih =>
    simp only [findCloseFence] at h
    by_cases hst : startsL (st "\n```") (c :: cs) = true
    · simp [hasSubL, hst]
    · rw [if_neg hst] at h
      cases hrec : findCloseFence cs with
      | none => rw [hrec] at h; simp at h
      | some r2 =>
        simp only [hasSubL, Bool.or_eq_true]
        exact Or.inr (ih hrec)

theorem fenceMatch_none_of_no_close {u : JStr}
    (h : hasSubL (st "\n```") u = false) : fenceMatch u = none := by
  unfold fenceMatch
  by_cases hst : startsL (st "```") u = true
  · rw [if_pos hst]
    dsimp only
    split
    · rename_i body heq
      cases hfc : findCloseFence body with
      | none => simp
      | some r =>
        have hb : hasSubL (st "\n```") body = true := findCloseFence_some_hasSub hfc
        have hsuf : body <:+ u := by
          have h1 : body <:+ '\n' :: body := List.suffix_cons '\n' body
          have h2 : ('\n' :: body) <:+ u.drop 3 := by
            rw [← heq]
            exact List.dropWhile_suffix _
          have h3 : u.drop 3 <:+ u := List.drop_suffix 3 u
          exact h1.trans (h2.trans h3)
        rw [hasSubL_of_suffix hsuf hb] at h
        simp at h
    · rfl
  · rw [if_neg hst]

theorem scanR_eq_self {f : JStr → Option (JStr × JStr)} :
    ∀ (n : Nat) (cs : JStr), (∀ t, t <:+ cs → f t = none) → scanR f n cs = cs := by
  intro n
  induction n with
  | zero => intro cs _; rfl
  | succ n ih =>
    intro cs hf
    cases cs with
    | nil => rfl
    | cons c cs' =>
      simp only [scanR]
      rw [hf (c :: cs') (List.suffix_refl _)]
      rw [ih cs' (fun t ht => hf t (ht.trans (List.suffix_cons c cs')))]

theorem processCodeBlocks_id_of_no_close {cs : JStr}
    (h : hasSubL (st "\n```") cs = false) : processCodeBlocks cs = cs := by
  unfold processCodeBlocks
  refine scanR_eq_self cs.length cs (fun t ht => ?_)
  refine fenceMatch_none_of_no_close ?_
  cases hq : hasSubL (st "\n```") t with
  | false => rfl
  | true => rw [hasSubL_of_suffix ht hq] at h; simp at h

end MDP

namespace MDP

/-- `findMarker` returns `none` when no line trims to `---`. -/
theorem findMarker_eq_none {ls : List JStr} (h : ∀ l ∈ ls, trimWS l ≠ st "---") :
    findMarker ls = none := by
  induction ls with
  | nil => rfl
  | cons l ls ih =>
    simp only [findMarker]
    rw [if_neg (h l (List.mem_cons_self l ls))]
    rw [ih (fun x hx => h x (List.mem_cons_of_mem l hx))]
    rfl

/-! ### The claims -/

/-- C1: the claim asserts that for every input the list stage's output is
tag-balanced and properly nested, so that a stack-based tag validator
accepts it.  The code violates this: on the plain three-level list
`"- a\n  - b\n    - c\n- d"` the loop at lines 185–189 closes the pending
`<li>` of the level-1 item (which contains the open level-2 list) *before*
`adjustListStack`'s closing tags for the level-2 `</ul>` are emitted, so
the output contains `…<li>c</li>\n</li>\n</ul>\n</ul>…` and the validator
rejects it.  This theorem evaluates the stage at that failing input and
runs the validator. -/
theorem c1_list_output_not_tag_balanced :
    processListsImproved (st "- a\n  - b\n    - c\n- d") =
      st "<ul>\n<li>a\n<ul>\n<li>b\n<ul>\n<li>c</li>\n</li>\n</ul>\n</ul>\n</li>\n<li>d</li>\n</ul>" ∧
    tagBalanced (processListsImproved (st "- a\n  - b\n    - c\n- d")) = false :=
  ⟨by decide, by decide⟩

/-- C2: the claim asserts that a code fence's interior is immune to every
later transform — in particular a literal `**not bold**` inside a fence is
never turned into a strong element.  The code violates this: the bold
stage is a global regex over the whole text and rewrites the `**…**`
inside the already-rendered `<pre><code>` block.  This theorem evaluates
the full pipeline at the failing input. -/
theorem c2_fence_contents_rewritten_by_bold :
    convertToHtml (st "```\n**not bold**\n```") =
      st "<pre><code><strong>not bold</strong></code></pre>" := by
  decide

/-- C3 (counterexample): the claim says a blank line inside a list is
absorbed (nothing emitted) when the next non-blank line is again a list
item.  On `"- a\n\n- b"` the code instead closes the list, emits the blank
line, and starts a fresh list — the output contains an empty line and two
separate `<ul>` blocks. -/
theorem c3_blank_line_not_absorbed :
    processListsImproved (st "- a\n\n- b") =
      st "<ul>\n<li>a</li>\n</ul>\n\n<ul>\n<li>b</li>\n</ul>" ∧
    [] ∈ splitNl (processListsImproved (st "- a\n\n- b")) :=
  ⟨by decide, by decide⟩

/-- C3 (amended): a blank line encountered while a list is open always
closes all pending `<li>`s and every open frame — with no lookahead — and
the blank line is emitted as-is. -/
theorem c3_blank_line_closes_all_lists (line : JStr) (rest : List JStr)
    (res : List JStr) (stack : List Frame) (pend : List Pend)
    (hs : stack ≠ []) (ht : trimWS line = []) :
    listLoop (line :: rest) res stack pend =
      listLoop rest (closeAllListsR (closeAllPendingR res pend) stack ++ [line]) [] [] := by
  have hpl : parseListItem line = none := parseListItem_of_all_ws (all_jsws_of_trim_nil ht)
  simp only [listLoop, hpl, ht, hs]
  simp [hs]

/-- Witness for the amended C3 at a concrete state. -/
theorem c3_blank_line_closes_all_lists_witness :
    listLoop [[]] [] [newFrame .ul 0] [] =
      listLoop [] (closeAllListsR (closeAllPendingR [] []) [newFrame .ul 0] ++ [[]]) [] [] :=
  c3_blank_line_closes_all_lists [] [] [] [newFrame .ul 0] [] (by decide) (by decide)

/-- C4 (counterexample): the claim says every maximal run of consecutive
`|`-containing lines forms a table with the first line as header.  The
code only opens a table when a separator row is seen: the two-line run
`"|a|b|\n|c|d|"` passes through unchanged and no table is emitted. -/
theorem c4_run_without_separator_forms_no_table :
    processTables (st "|a|b|\n|c|d|") = st "|a|b|\n|c|d|" ∧
    ¬ (st "<table>") ∈ splitNl (processTables (st "|a|b|\n|c|d|")) :=
  ⟨by decide, by decide⟩

/-- C4 (amended): a table is opened only by a separator row seen outside a
table, which pops the previously emitted line and re-emits it as the header
row while itself emitting no row; a separator row inside a table is
consumed silently; subsequent `|`-containing lines inside the table become
body rows; a `|`-containing line outside any table passes through
unchanged; the first line without a `|` closes the table, and a table still
open at end of input is closed there. -/
theorem c4_table_state_machine :
    (∀ (line hl : JStr) (res : List JStr) (hp : Bool),
      (trimWS line).contains '|' = true → isSeparatorLine (trimWS line) = true →
      hl ≠ [] →
      tableStep (res ++ [hl], false, hp) line = (res ++ tableHeaderTags hl, true, true)) ∧
    (∀ (line : JStr) (res : List JStr) (hp : Bool),
      (trimWS line).contains '|' = true → isSeparatorLine (trimWS line) = true →
      tableStep (res, true, hp) line = (res, true, hp)) ∧
    (∀ (line : JStr) (res : List JStr) (hp : Bool),
      (trimWS line).contains '|' = true → isSeparatorLine (trimWS line) = false →
      tableStep (res, true, hp) line = (res ++ tableRowTags (trimWS line), true, hp)) ∧
    (∀ (line : JStr) (res : List JStr) (hp : Bool),
      (trimWS line).contains '|' = true → isSeparatorLine (trimWS line) = false →
      tableStep (res, false, hp) line = (res ++ [line], false, hp)) ∧
    (∀ (line : JStr) (res : List JStr) (hp : Bool),
      (trimWS line).contains '|' = false →
      tableStep (res, true, hp) line = (res ++ [st "</tbody></table>", line], false, false)) ∧
    (∀ (res : List JStr) (hp : Bool),
      tableFinalize (res, true, hp) = res ++ [st "</tbody></table>"]) := by
  refine ⟨?_, ?_, ?_, ?_, ?_, ?_⟩
  · intro line hl res hp hpip hsep hne
    have hmem : '|' ∈ trimWS line := by simpa using hpip
    simp [tableStep, hmem, hsep, hne]
  · intro line res hp hpip hsep
    have hmem : '|' ∈ trimWS line := by simpa using hpip
    simp [tableStep, hmem, hsep]
  · intro line res hp hpip hsep
    have hmem : '|' ∈ trimWS line := by simpa using hpip
    simp [tableStep, hmem, hsep]
  · intro line res hp hpip hsep
    have hmem : '|' ∈ trimWS line := by simpa using hpip
    simp [tableStep, hmem, hsep]
  · intro line res hp hpip
    have hmem : ¬ ('|' ∈ trimWS line) := by simpa using hpip
    simp [tableStep, hmem]
  · intro res hp
    simp [tableFinalize]

/-- Witness for the amended C4 at concrete lines and states. -/
theorem c4_table_state_machine_witness :
    tableStep ([st "|h1|h2|"], false, false) (st "|---|---|") =
      (tableHeaderTags (st "|h1|h2|"), true, true) ∧
    tableStep ([], true, false) (st "|a|b|") =
      (tableRowTags (trimWS (st "|a|b|")), true, false) ∧
    tableStep ([], true, true) (st "done") =
      ([st "</tbody></table>", st "done"], false, false) ∧
    tableFinalize ([], true, true) = [st "</tbody></table>"] :=
  ⟨c4_table_state_machine.1 (st "|---|---|") (st "|h1|h2|") [] false
      (by decide) (by decide) (by decide),
   c4_table_state_machine.2.2.1 (st "|a|b|") [] false (by decide) (by decide),
   c4_table_state_machine.2.2.2.2.1 (st "done") [] true (by decide),
   c4_table_state_machine.2.2.2.2.2 [] true⟩

/-- C5 (counterexample): the claim says an unterminated code fence is
force-closed at end of input and still rendered as a closed preformatted
block.  The code's fence regex requires the closing backticks, so on
`"```\nabc"` nothing matches: the text flows literally into the paragraph
stage and no `<pre>` appears in the output. -/
theorem c5_unterminated_fence_left_literal :
    convertToHtml (st "```\nabc") = st "<p>```<br>abc</p>" ∧
    hasSubL (st "<pre>") (convertToHtml (st "```\nabc")) = false :=
  ⟨by decide, by decide⟩

/-- C5 (amended): an unterminated code fence is never force-closed — on
any input with no `"\n```"` occurrence (in particular a leading fence
opener that is never closed) the code-block stage returns its input
unchanged, leaving the fence as literal text for the later stages. -/
theorem c5_unterminated_fence_not_force_closed (cs : JStr)
    (h : hasSubL (st "\n```") cs = false) : processCodeBlocks cs = cs :=
  processCodeBlocks_id_of_no_close h

/-- Witness for the amended C5 at the concrete unterminated fence. -/
theorem c5_unterminated_fence_not_force_closed_witness :
    hasSubL (st "\n```") (st "```\nabc") = false ∧
    processCodeBlocks (st "```\nabc") = st "```\nabc" :=
  ⟨by decide, c5_unterminated_fence_not_force_closed (st "```\nabc") (by decide)⟩

/-- C6: for a document that does not begin with a `---` line (after
trimming), and likewise for one that begins with `---` but has no later
line trimming to `---`, extraction returns empty metadata and the whole
document unchanged as the body. -/
theorem c6_no_front_matter_identity (doc : JStr)
    (h : trimWS ((splitNl doc).headD []) ≠ st "---" ∨
         (trimWS ((splitNl doc).headD []) = st "---" ∧
          ∀ l ∈ (splitNl doc).tail, trimWS l ≠ st "---")) :
    extractYamlHeader doc = ([], doc) := by
  simp only [extractYamlHeader]
  by_cases hlen : (splitNl doc).length < 3
  · rw [if_pos hlen]
  · rw [if_neg hlen]
    cases hsp : splitNl doc with
    | nil => rfl
    | cons l0 rest =>
      rw [hsp] at h
      simp only [List.headD_cons, List.tail_cons] at h
      dsimp only
      rcases h with h | ⟨h1, h2⟩
      · rw [if_pos h]
      · rw [if_neg (by simp [h1])]
        rw [findMarker_eq_none h2]

/-- Witness for C6: a three-line document with no front matter, and an
unterminated front-matter opener. -/
theorem c6_no_front_matter_identity_witness :
    extractYamlHeader (st "hello\nworld\n!") = ([], st "hello\nworld\n!") ∧
    extractYamlHeader (st "---\ntitle: x\nbody") = ([], st "---\ntitle: x\nbody") :=
  ⟨c6_no_front_matter_identity (st "hello\nworld\n!") (Or.inl (by decide)),
   c6_no_front_matter_identity (st "---\ntitle: x\nbody")
     (Or.inr ⟨by decide, by decide⟩)⟩

/-- C7 (counterexample): the claim says `value` attributes appear only
after a frame switches to explicit numbering, and that the switch happens
when an item's number differs from the previous counter plus one.  On
`"1. a\n2. b"` the numbers are perfectly sequential, yet the code emits a
`value` attribute on every item from the first, and item `2.` switches the
frame to explicit mode because its number is not 1 (the code compares
against 1, not against counter + 1). -/
theorem c7_value_attribute_before_any_switch :
    processListsImproved (st "1. a\n2. b") =
      st "<ol>\n<li value=\"1\">a</li>\n<li value=\"2\">b</li>\n</ol>" ∧
    ¬ (st "<li>a</li>") ∈ splitNl (processListsImproved (st "1. a\n2. b")) :=
  ⟨by decide, by decide⟩

/-- C7 (amended): when the top frame is an `ol` at the item's level, every
item renders with an explicit `value` attribute equal to the frame
counter; the frame switches to explicit mode (taking the item's number
verbatim) exactly when it is already explicit or the item's number is not
1; otherwise the counter auto-increments. -/
theorem c7_ol_counter_semantics (stk : List Frame) (f : Frame) (info : ListItemInfo)
    (num : Nat) (hty : info.type = .ol) (hfty : f.type = .ol)
    (hlv : f.level = info.indentLevel) (hnum : info.orderNumber = some num) :
    olLiTag (stk ++ [f]) info =
      (if f.explicitNumbering.getD false || num ≠ 1 then
        (stk ++ [{ f with explicitNumbering := some true, counter := some num }],
         st "<li value=\"" ++ natToStr num ++ st "\">")
      else
        (stk ++ [{ f with counter := some (f.counter.getD 0 + 1) }],
         st "<li value=\"" ++ natToStr (f.counter.getD 0 + 1) ++ st "\">")) := by
  by_cases hx : f.explicitNumbering.getD false = true
  · simp [olLiTag, hty, hfty, hlv, hnum, List.getLast?_concat, List.dropLast_concat, hx]
  · by_cases hn : num = 1
    · subst hn
      simp [olLiTag, hty, hfty, hlv, hnum, List.getLast?_concat, List.dropLast_concat, hx]
    · simp [olLiTag, hty, hfty, hlv, hnum, List.getLast?_concat, List.dropLast_concat, hx, hn]

/-- Witness for the amended C7: an item numbered 3 under a fresh frame
switches it to explicit numbering with counter 3. -/
theorem c7_ol_counter_semantics_witness :
    olLiTag [newFrame .ol 0] ⟨.ol, 0, st "a", some 3⟩ =
      ([{ newFrame .ol 0 with explicitNumbering := some true, counter := some 3 }],
       st "<li value=\"" ++ natToStr 3 ++ st "\">") :=
  (c7_ol_counter_semantics [] (newFrame .ol 0) ⟨.ol, 0, st "a", some 3⟩ 3
      rfl rfl rfl rfl).trans (by decide)

/-- C8: on a list-item line the nesting level is the number of leading
tabs plus `floor(spaces / 2)` — so a single space adds nothing — and
full-width spaces before the marker contribute nothing; this holds for all
three bullet markers and for a numbered marker. -/
theorem c8_indent_levels (k n m : Nat) (b x : Char) (c' : JStr)
    (hb : b = '-' ∨ b = '+' ∨ b = '*') (hx : jsws x = false) :
    parseListItem (repC k '　' ++ (repC n '\t' ++ (repC m ' ' ++ b :: ' ' :: x :: c'))) =
      some ⟨.ul, n + m / 2, x :: c', none⟩ ∧
    parseListItem (repC k '　' ++ (repC n '\t' ++ (repC m ' ' ++ '1' :: '.' :: ' ' :: x :: c'))) =
      some ⟨.ol, n + m / 2, x :: c', some 1⟩ := by
  refine ⟨?_, parseListItem_ordered_canonical k n m x c' hx⟩
  rcases hb with h | h | h <;> subst h <;>
    exact parseListItem_bullet_canonical k n m _ x c'
      (by decide) (by decide) (by decide) (by decide) hx

/-- Witness for C8: one full-width space (ignored), one tab (one level)
and one space (no level) give level 1. -/
theorem c8_indent_levels_witness :
    parseListItem (repC 1 '　' ++ (repC 1 '\t' ++ (repC 1 ' ' ++ '-' :: ' ' :: 'y' :: []))) =
      some ⟨.ul, 1, ['y'], none⟩ ∧
    parseListItem (repC 1 '　' ++ (repC 1 '\t' ++ (repC 1 ' ' ++ '1' :: '.' :: ' ' :: 'y' :: []))) =
      some ⟨.ol, 1, ['y'], some 1⟩ :=
  c8_indent_levels 1 1 1 '-' 'y' [] (Or.inl rfl) (by decide)

/-- C9: a document with fewer than three lines is returned whole with
empty metadata — in particular the two-line document `"---\n---"` is not
treated as an empty front-matter block. -/
theorem c9_short_document_identity (doc : JStr)
    (h : (splitNl doc).length < 3) :
    extractYamlHeader doc = ([], doc) := by
  simp only [extractYamlHeader]
  rw [if_pos h]

/-- Witness for C9 at the two-marker document. -/
theorem c9_short_document_identity_witness :
    (splitNl (st "---\n---")).length < 3 ∧
    extractYamlHeader (st "---\n---") = ([], st "---\n---") :=
  ⟨by decide, c9_short_document_identity (st "---\n---") (by decide)⟩

/-- C10: metadata parsing is total, and when two or more lines of the
block carry the same trimmed key, the resulting mapping holds exactly the
value of the last such line — later occurrences overwrite earlier ones. -/
theorem c10_last_duplicate_key_wins (content k : JStr)
    (h : 2 ≤ ((splitNl content).filter (contributesTo k)).length) :
    lookupKey (parseYaml content) k =
      ((splitNl content).filter (contributesTo k)).getLast?.map yamlValueOfLine := by
  unfold parseYaml
  rw [parseYaml_foldl_lookup k (splitNl content) []]
  cases hgl : ((splitNl content).filter (contributesTo k)).getLast? with
  | none =>
    exfalso
    have hne : (splitNl content).filter (contributesTo k) ≠ [] := by
      intro hq
      rw [hq] at h
      simp at h
    rw [List.getLast?_eq_none_iff] at hgl
    exact hne hgl
  | some l => rfl

/-- Witness for C10: key `a` appears twice; the mapping holds the later
value. -/
theorem c10_last_duplicate_key_wins_witness :
    2 ≤ ((splitNl (st "a: 1\nb: 2\na: 3")).filter (contributesTo (st "a"))).length ∧
    lookupKey (parseYaml (st "a: 1\nb: 2\na: 3")) (st "a") =
      ((splitNl (st "a: 1\nb: 2\na: 3")).filter (contributesTo (st "a"))).getLast?.map
        yamlValueOfLine :=
  ⟨by decide, c10_last_duplicate_key_wins (st "a: 1\nb: 2\na: 3") (st "a") (by decide)⟩

end MDP
